import Mathlib

/-!
Verification of the Marigold surface-normals estimation pipeline
(`src/diffusers/pipelines/marigold/pipeline_marigold_normals.py`) against its
natural-language specification.

The development shallowly embeds the pure/orchestration parts of the pipeline:

* shapes are `List ℕ`, tensor data is `List ℚ` (exact rational arithmetic in
  place of machine floats, except where finiteness classification matters, in
  which case an explicit `FVal` model with `±∞`/`NaN` is used, and except for
  the normal-vector geometry, which uses `ℝ` so that Euclidean norms exist);
* fallible code returns `Except MErr`;
* external model collaborators (VAE encoder/decoder, U-Net, scheduler, text
  encoder, `F.interpolate` value semantics) are out of scope per the spec;
  functions that call them are modelled at the shape/trace level, with the
  invocation points recorded as explicit `Step` events.
-/

/-- Error taxonomy of the pipeline, one constructor per `raise ValueError` site
in the source (warnings are non-fatal and not modelled). -/
inductive MErr
  | stepsUnresolved          -- "`num_inference_steps` is not specified..."
  | stepsNotPositive         -- "`num_inference_steps` must be positive."
  | ensembleNotPositive      -- "`ensemble_size` must be positive."
  | resolutionUnresolved     -- "`processing_resolution` is not specified..."
  | resolutionNegative       -- "`processing_resolution` must be non-negative..."
  | resolutionNotMultiple    -- "`processing_resolution` must be a multiple of 8."
  | badResampleInput         -- "`resample_method_input` takes string values..."
  | badResampleOutput        -- "`resample_method_output` takes string values..."
  | batchNotPositive         -- "`batch_size` must be positive."
  | badOutputFormat          -- "`output_prediction_format` must be one of `pt` or `np`."
  | latentWithGenerator      -- "`input_latent` and `generator` cannot be used together."
  | ensemblingKwargsNotDict  -- "`ensembling_kwargs` must be a dictionary."
  | visualizationKwargsNotDict -- "`output_visualization_kwargs` must be a dictionary."
  | imageShapeUnpack         -- Python unpack failure of `H, W = image.shape[-2:]` on ndim < 2
  | badImageShape            -- "`image` has unsupported dimension or shape..."
  | unsupportedImageType     -- "Unsupported `image` type..."
  | latentDims               -- "`input_latent` has unsupported dimensions or shape..."
  | extremeAspect            -- "Extreme aspect ratio of the input image..."
  | latentShapeMismatch      -- "`input_latent` has unexpected shape..."
  | generatorDeviceMismatch  -- "`generator` device differs from the pipeline's device."
  | generatorCountMismatch   -- "The number generators must match..."
  | generatorListDeviceMismatch -- "At least one of the `generator` devices differs..."
  | signedIntDtype           -- "Input image dtype=... cannot be a signed integer."
  | complexDtype             -- "Input image dtype=... cannot be complex."
  | boolDtype                -- "Input image dtype=... cannot be boolean."
  | ptDtypeUnsupported       -- "Image dtype=... is not supported."
  | badChannels3D            -- "Input image is not a 1- or 3-channel: ..."
  | badDims                  -- "Input image is not a 2-, 3-, or 4-dimensional tensor."
  | imageOutOfRange          -- "Input image data is partially outside of the [-1,1] range."
  deriving DecidableEq, Repr

/-- Element dtype of an input array/tensor, as far as the dtype branching in
`load_image_canonical` distinguishes them.  `uint m` is an unsigned integer
dtype with `np.iinfo(dtype).max = m`; `torch.uint8` is `uint 255`. -/
inductive DType
  | float
  | uint (maxVal : ℕ)
  | sint
  | complex
  | boolean
  deriving DecidableEq, Repr

/-- A tensor: shape, dtype and row-major flattened data. -/
structure Tensor where
  dims : List ℕ
  dtype : DType
  data : List ℚ
  deriving DecidableEq, Repr

/-- The image argument of the pipeline: a numpy array, a torch tensor, a PIL
image (carried as the numpy array `np.array(pil)` it converts to; `PIL.size`
is `(W, H) = (dims[1], dims[0])` of that array), or an unsupported object. -/
inductive ImageInput
  | np (t : Tensor)
  | pt (t : Tensor)
  | pil (t : Tensor)
  | other
  deriving DecidableEq, Repr

/-- Shape (numpy/torch) of an image input; `[]` for the unsupported kind. -/
def dimsOf : ImageInput → List ℕ
  | .np t => t.dims
  | .pt t => t.dims
  | .pil t => t.dims
  | .other => []

/-- The `generator` argument: a single `torch.Generator` or a list of them.
Only the data the checks inspect is kept: whether each generator's device
matches the pipeline's execution device. -/
inductive GenArg
  | single (devMatch : Bool)
  | glist (devMatches : List Bool)
  deriving DecidableEq, Repr

/-! ## load_image_canonical (source lines 117-152) -/

/-- `unsqueeze(0)`: prepend a dimension of size 1; flat data unchanged. -/
def unsqueeze0 (t : Tensor) : Tensor :=
  ⟨1 :: t.dims, t.dtype, t.data⟩

/-- Row-major flat index of `(i, j, k)` in a tensor of shape `[a, b, c]`. -/
def idx3 (b c i j k : ℕ) : ℕ :=
  (i * b + j) * c + k

/-- `permute(2, 0, 1)` on a 3-D tensor `[a, b, c] → [c, a, b]`,
`new[k, i, j] = old[i, j, k]`.  Identity on other ranks (never called so). -/
def permute201 (t : Tensor) : Tensor :=
  match t.dims with
  | [a, b, c] =>
    ⟨[c, a, b], t.dtype,
      ((List.range c).map (fun k =>
        ((List.range a).map (fun i =>
          (List.range b).map (fun j => t.data.getD (idx3 b c i j k) 0))).flatten)).flatten⟩
  | _ => t

/-- `repeat(3, 1, 1)` on a 3-D tensor: triples the leading dimension, tiling
the data three times along it. -/
def rep3 (t : Tensor) : Tensor :=
  ⟨match t.dims with
   | d0 :: rest => (3 * d0) :: rest
   | [] => [],
   t.dtype, t.data ++ t.data ++ t.data⟩

/-- `repeat(1, 3, 1, 1)` as applied in the source to a `[1, 1, H, W]` tensor:
triples the channel dimension, tiling data three times (valid because the
leading dimension is 1 at the single call site). -/
def repeatCh3 (t : Tensor) : Tensor :=
  ⟨match t.dims with
   | a :: b :: rest => a :: (3 * b) :: rest
   | d => d,
   t.dtype, t.data ++ t.data ++ t.data⟩

/-- The shape-normalisation part of `load_image_canonical` (lines 139-150):
2-D inputs become `[1, 3, H, W]` by unsqueezing twice and repeating channels,
3-D inputs are permuted to channels-first if interleaved, broadcast from 1 to
3 channels, checked, and unsqueezed; 4-D inputs pass through unchanged. -/
def canonShape (t : Tensor) : Except MErr Tensor :=
  match t.dims with
  | [_, _] => .ok (repeatCh3 (unsqueeze0 (unsqueeze0 t)))
  | [_, _, c] =>
    let t1 := if c = 1 ∨ c = 3 then permute201 t else t
    let t2 := if t1.dims.headD 0 = 1 then rep3 t1 else t1
    if t2.dims.headD 0 = 3 then .ok (unsqueeze0 t2) else .error .badChannels3D
  | [_, _, _, _] => .ok t
  | _ => .error .badDims

/-- `load_image_canonical` (lines 117-152).  Returns the canonicalised tensor
and the optional source maximum value (`input_dtype_max`).  PIL images first
become numpy arrays; numpy signed-integer/complex/boolean dtypes are rejected;
numpy unsigned dtypes are cast to float32 with `input_dtype_max` set to the
dtype's max; a torch tensor that is neither floating nor uint8 is rejected,
and torch uint8 gets `input_dtype_max = 255` (its dtype is NOT converted). -/
def loadImageCanonical : ImageInput → Except MErr (Tensor × Option ℕ)
  | .other => .error .unsupportedImageType
  | .np t =>
    match t.dtype with
    | .sint => .error .signedIntDtype
    | .complex => .error .complexDtype
    | .boolean => .error .boolDtype
    | .uint m => (canonShape ⟨t.dims, .float, t.data⟩).map (fun u => (u, some m))
    | .float => (canonShape t).map (fun u => (u, none))
  | .pil t =>
    -- `image = np.array(image)` and then the numpy path
    match t.dtype with
    | .sint => .error .signedIntDtype
    | .complex => .error .complexDtype
    | .boolean => .error .boolDtype
    | .uint m => (canonShape ⟨t.dims, .float, t.data⟩).map (fun u => (u, some m))
    | .float => (canonShape t).map (fun u => (u, none))
  | .pt t =>
    match t.dtype with
    | .float => (canonShape t).map (fun u => (u, none))
    | .uint m =>
      -- `if image.dtype != torch.uint8: raise`; torch's only unsigned dtype
      -- beyond this point is uint8, whose iinfo max is 255
      if m = 255 then (canonShape t).map (fun u => (u, some 255))
      else .error .ptDtypeUnsupported
    | _ => .error .ptDtypeUnsupported

/-! ## check_image_values_range (source lines 155-167) -/

/-- `check_image_values_range`: raises when any value is outside `[-1, 1]`.
The entirely-in-`[0,1]` case only logs a warning and is not an error. -/
def checkImageValuesRange (t : Tensor) : Except MErr Unit :=
  let vmin := t.data.foldl min (t.data.headD 0)
  let vmax := t.data.foldl max (t.data.headD 0)
  if vmin < -1 ∨ vmax > 1 then .error .imageOutOfRange else .ok ()

/-! ## resize_to_max_edge (source lines 78-91) and pad_image, shape level

The value semantics of `resize_antialias` is `F.interpolate`, an external
numeric capability; the embedding tracks the shape arithmetic and the
degenerate-geometry error, which is all the source computes itself. -/

/-- `resize_to_max_edge`: scale the last two dimensions so the larger equals
`maxEdge`, with integer floor arithmetic exactly as in the source; raise on a
collapsed axis.  Data is carried through (its values are produced by the
external interpolation and are not modelled). -/
def resizeToMaxEdgeT (t : Tensor) (maxEdge : ℕ) : Except MErr Tensor :=
  let rev := t.dims.reverse
  let w := rev.getD 0 0
  let h := rev.getD 1 0
  let maxOrig := max h w
  let newH := h * maxEdge / maxOrig
  let newW := w * maxEdge / maxOrig
  if newH = 0 ∨ newW = 0 then .error .extremeAspect
  else .ok ⟨t.dims.take (t.dims.length - 2) ++ [newH, newW], t.dtype, t.data⟩

/-- Python `-n % a` on naturals (the padding amount of `pad_image`). -/
def negMod (n a : ℕ) : ℕ :=
  ((-(n : ℤ)) % (a : ℤ)).toNat

/-- Shape-level `pad_image`: bump the last two dimensions up to the next
multiple of `align` (the value-level padding is `padImage` below). -/
def padTShape (t : Tensor) (align : ℕ) : Tensor × (ℕ × ℕ) :=
  let rev := t.dims.reverse
  let w := rev.getD 0 0
  let h := rev.getD 1 0
  let ph := negMod h align
  let pw := negMod w align
  (⟨t.dims.take (t.dims.length - 2) ++ [h + ph, w + pw], t.dtype, t.data⟩, (ph, pw))

/-! ## MarigoldNormalsPipeline.check_inputs (source lines 290-398) -/

/-- The resample methods accepted by `check_inputs`. -/
def resampleOk (s : String) : Prop :=
  s = "nearest" ∨ s = "nearest-exact" ∨ s = "bilinear" ∨ s = "bicubic" ∨ s = "area"

instance (s : String) : Decidable (resampleOk s) := by
  unfold resampleOk; infer_instance

/-- Arguments of a pipeline call (plus the pipeline-instance state the call
reads: config defaults, whether the empty-text embedding is cached, and the
VAE's latent channel count `latent_space_size`).  `ensemblingKwargsIsDict` /
`outputVisualizationKwargsIsDict` model the Python dynamic `isinstance(
..., dict)` checks: `none` = argument absent, `some b` = present and `b` says
whether it is a dict. -/
structure CallArgs where
  image : ImageInput
  numInferenceSteps : Option ℤ
  ensembleSize : ℤ
  processingResolution : Option ℤ
  resampleMethodInput : String
  resampleMethodOutput : String
  batchSize : ℤ
  checkInput : Bool
  ensemblingKwargsIsDict : Option Bool
  inputLatentDims : Option (List ℕ)
  generator : Option GenArg
  outputPredictionFormat : String
  outputVisualizationKwargsIsDict : Option Bool
  emptyTextCached : Bool
  defaultDenoisingSteps : Option ℤ
  defaultProcessingResolution : Option ℤ
  latentSpaceSize : ℕ

/-- Image-argument checks of `check_inputs` (lines 348-359): resolves
`(num_images, H, W)`.  `H, W = image.shape[-2:]` fails to unpack for ndim < 2
(a Python `ValueError` as well); then `ndim not in (2, 3, 4)` is rejected;
`num_images` is `shape[0]` for 4-D inputs and 1 otherwise.  For a PIL image,
`W, H = image.size`. -/
def imageDimsHW : ImageInput → Except MErr (ℕ × ℕ × ℕ)
  | .np t =>
    if t.dims.length < 2 then .error .imageShapeUnpack
    else if ¬(t.dims.length = 2 ∨ t.dims.length = 3 ∨ t.dims.length = 4) then
      .error .badImageShape
    else
      .ok (if t.dims.length = 4 then t.dims.getD 0 0 else 1,
           t.dims.getD (t.dims.length - 2) 0, t.dims.getD (t.dims.length - 1) 0)
  | .pt t =>
    if t.dims.length < 2 then .error .imageShapeUnpack
    else if ¬(t.dims.length = 2 ∨ t.dims.length = 3 ∨ t.dims.length = 4) then
      .error .badImageShape
    else
      .ok (if t.dims.length = 4 then t.dims.getD 0 0 else 1,
           t.dims.getD (t.dims.length - 2) 0, t.dims.getD (t.dims.length - 1) 0)
  | .pil t => .ok (1, t.dims.getD 0 0, t.dims.getD 1 0)
  | .other => .error .unsupportedImageType

/-- The expected `input_latent` shape after the optional resize (lines
375-377): ceil-divide the working resolution by the latent reduction factor 8
and expect `(num_images * ensemble_size, latent_space_size, h, w)`. -/
def latentShapeCompare (latentSpaceSize : ℕ) (ensembleSizeN : ℕ)
    (ldims : List ℕ) (numImages H W : ℕ) : Except MErr Unit :=
  let w := (W + 8 - 1) / 8
  let h := (H + 8 - 1) / 8
  let expected := [numImages * ensembleSizeN, latentSpaceSize, h, w]
  if ldims ≠ expected then .error .latentShapeMismatch else .ok ()

/-- `input_latent` checks of `check_inputs` (lines 361-382), embedded exactly
as written in the source, including the inverted guard
`if not input_latent.dim() != 4` (which fires precisely when the latent IS
4-dimensional). -/
def checkInputLatentSec (latentSpaceSize : ℕ) (ensembleSizeN : ℕ)
    (inputLatentDims : Option (List ℕ)) (pr : ℤ) (numImages H W : ℕ) :
    Except MErr Unit :=
  match inputLatentDims with
  | none => .ok ()
  | some ldims =>
    if ¬(ldims.length ≠ 4) then .error .latentDims
    else if 0 < pr then
      let maxOrig := max H W
      let nH := H * pr.toNat / maxOrig
      let nW := W * pr.toNat / maxOrig
      if nH = 0 ∨ nW = 0 then .error .extremeAspect
      else latentShapeCompare latentSpaceSize ensembleSizeN ldims numImages nH nW
    else latentShapeCompare latentSpaceSize ensembleSizeN ldims numImages H W

/-- `generator` checks of `check_inputs` (lines 384-398). -/
def checkGenerator (g : Option GenArg) (numImages ensembleSizeN : ℕ) :
    Except MErr Unit :=
  match g with
  | none => .ok ()
  | some (.single devMatch) =>
    if devMatch then .ok () else .error .generatorDeviceMismatch
  | some (.glist gs) =>
    if gs.length ≠ numImages * ensembleSizeN then .error .generatorCountMismatch
    else if ¬gs.all (fun b => b) then .error .generatorListDeviceMismatch
    else .ok ()

/-- `MarigoldNormalsPipeline.check_inputs` (lines 290-398).  `steps` and
`procRes` are the values after `__call__` has substituted the instance
defaults; `latent_size_scale` is the fixed 8. -/
def checkInputs (a : CallArgs) (steps procRes : Option ℤ) : Except MErr Unit :=
  match steps with
  | none => .error .stepsUnresolved
  | some ns =>
    if ns < 1 then .error .stepsNotPositive
    else if a.ensembleSize < 1 then .error .ensembleNotPositive
    else
      match procRes with
      | none => .error .resolutionUnresolved
      | some pr =>
        if pr < 0 then .error .resolutionNegative
        else if pr % 8 ≠ 0 then .error .resolutionNotMultiple
        else if ¬resampleOk a.resampleMethodInput then .error .badResampleInput
        else if ¬resampleOk a.resampleMethodOutput then .error .badResampleOutput
        else if a.batchSize < 1 then .error .batchNotPositive
        else if ¬(a.outputPredictionFormat = "pt" ∨ a.outputPredictionFormat = "np") then
          .error .badOutputFormat
        else if a.inputLatentDims.isSome ∧ a.generator.isSome then
          .error .latentWithGenerator
        else if a.ensemblingKwargsIsDict = some false then .error .ensemblingKwargsNotDict
        else if a.outputVisualizationKwargsIsDict = some false then
          .error .visualizationKwargsNotDict
        else
          match imageDimsHW a.image with
          | .error e => .error e
          | .ok (numImages, H, W) =>
            match checkInputLatentSec a.latentSpaceSize a.ensembleSize.toNat
                a.inputLatentDims pr numImages H W with
            | .error e => .error e
            | .ok _ => checkGenerator a.generator numImages a.ensembleSize.toNat

/-! ## The `__call__` prologue as an event trace (source lines 491-544)

`Step` events mark the model-collaborator invocation points that occur before
or between the validations: `encode_empty_text` (tokenizer + text encoder,
lines 520-522) and the VAE encoder inside `prepare_latent` (lines 541-544).
The trace runs up to the first VAE-encoder invocation; every validation error
named by the spec is raised at or before that point. -/

inductive Step
  | textEncoder
  | vaeEncoder
  deriving DecidableEq, Repr

/-- `num_inference_steps` after falling back to the instance default. -/
def resolvedSteps (a : CallArgs) : Option ℤ :=
  match a.numInferenceSteps with
  | none => a.defaultDenoisingSteps
  | some s => some s

/-- `processing_resolution` after falling back to the instance default. -/
def resolvedRes (a : CallArgs) : Option ℤ :=
  match a.processingResolution with
  | none => a.defaultProcessingResolution
  | some p => some p

/-- Rescale by the source maximum: `image * (2.0 / input_dtype_max) - 1.0`
(line 532). -/
def rescaleData (t : Tensor) (m : ℕ) : Tensor :=
  ⟨t.dims, t.dtype, t.data.map (fun v => v * (2 / (m : ℚ)) - 1)⟩

/-- Steps 3 (resize + pad) and 4 (VAE encode) of `__call__`: the optional
resize may raise the extreme-aspect error; `pad_image` raises nothing; then
`prepare_latent` invokes the VAE encoder. -/
def callTail (pr : ℤ) (tr : List Step) (t : Tensor) : List Step × Option MErr :=
  if 0 < pr then
    match resizeToMaxEdgeT t pr.toNat with
    | .error e => (tr, some e)
    | .ok t2 =>
      let _ := padTShape t2 8
      (tr ++ [Step.vaeEncoder], none)
  else
    let _ := padTShape t 8
    (tr ++ [Step.vaeEncoder], none)

/-- The `__call__` prologue (lines 491-544): resolve defaults, run
`check_inputs`, compute the empty-text embedding if not cached (a tokenizer /
text-encoder invocation), canonicalise the image, rescale it or check its
value range, resize, pad, and encode (first VAE invocation).  Returns the
model-invocation trace and the error, if one was raised. -/
def callStage3 (a : CallArgs) (tr : List Step) : List Step × Option MErr :=
  match loadImageCanonical a.image with
  | .error e => (tr, some e)
  | .ok (t, dmax) =>
    match dmax with
    | some m => callTail ((resolvedRes a).getD 0) tr (rescaleData t m)
    | none =>
      if a.checkInput then
        match checkImageValuesRange t with
        | .error e => (tr, some e)
        | .ok _ => callTail ((resolvedRes a).getD 0) tr t
      else callTail ((resolvedRes a).getD 0) tr t

def callTrace (a : CallArgs) : List Step × Option MErr :=
  match checkInputs a (resolvedSteps a) (resolvedRes a) with
  | .error e => ([], some e)
  | .ok _ => callStage3 a (if a.emptyTextCached then [] else [Step.textEncoder])

/-! ## pad_image / unpad_image, value level (source lines 94-114)

A 4-D tensor is modelled as nested lists `batch → channel → rows → row`.
`F.pad(..., (0, pw, 0, ph), mode="replicate")` appends `pw` copies of each
row's last element on the right and `ph` copies of the (already right-padded)
last row at the bottom.  `unpad_image` slices them back off
(`image[:, :, :uh, :uw]` with `uh = None if ph == 0 else -ph`). -/

/-- One 2-D spatial slice. -/
abbrev Mat := List (List ℚ)

/-- A 4-D image tensor: batch of channels of 2-D slices. -/
abbrev Img4 := List (List Mat)

/-- Replicate-pad one row on the right by `pw` copies of its last element. -/
def padRow (pw : ℕ) (r : List ℚ) : List ℚ :=
  r ++ List.replicate pw (r.getLastD 0)

/-- Replicate-pad a 2-D slice by `pw` on the right and `ph` at the bottom. -/
def pad2dBy (ph pw : ℕ) (m : Mat) : Mat :=
  let m1 := m.map (padRow pw)
  m1 ++ List.replicate ph (m1.getLastD [])

/-- Remove `pw` trailing entries of every row and `ph` trailing rows
(Python slicing `[... : -ph]`, with the whole axis kept when the pad is 0). -/
def unpad2dBy (ph pw : ℕ) (m : Mat) : Mat :=
  (m.take (m.length - ph)).map (fun r => r.take (r.length - pw))

/-- Height (`shape[-2]`) of an `Img4`. -/
def height4 (t : Img4) : ℕ :=
  ((t.headD []).headD []).length

/-- Width (`shape[-1]`) of an `Img4`. -/
def width4 (t : Img4) : ℕ :=
  (((t.headD []).headD []).headD []).length

/-- `pad_image` (lines 94-102): compute `ph, pw = -h % align, -w % align` and
replicate-pad every spatial slice, returning the padding record. -/
def padImage (t : Img4) (align : ℕ) : Img4 × (ℕ × ℕ) :=
  let ph := negMod (height4 t) align
  let pw := negMod (width4 t) align
  (t.map (fun ch => ch.map (pad2dBy ph pw)), (ph, pw))

/-- `unpad_image` (lines 105-114). -/
def unpadImage (t : Img4) (padding : ℕ × ℕ) : Img4 :=
  t.map (fun ch => ch.map (unpad2dBy padding.1 padding.2))

/-- Element access with defaults, used to state content preservation. -/
def elem4 (t : Img4) (bi ci i j : ℕ) : ℚ :=
  ((((t.getD bi []).getD ci []).getD i []).getD j 0)

/-- Rectangularity of an `Img4`: every slice is `h` rows of length `w`. -/
def rect4 (t : Img4) (h w : ℕ) : Prop :=
  ∀ ch ∈ t, ∀ m ∈ ch, m.length = h ∧ ∀ r ∈ m, r.length = w

instance (t : Img4) (h w : ℕ) : Decidable (rect4 t h w) := by
  unfold rect4; infer_instance

/-! ## encode_prediction input checks (source lines 687-698)

The three `check_input` validations branch on NaN-ness and finiteness of
floating-point values, so here values are modelled by `FVal`: a finite
rational, `+∞`, `-∞`, or `NaN`, with IEEE-style propagation in the operations
the checks use (`**2`, `sum`, `- 1.0`, `abs`, `max`, `<`). -/

inductive FVal
  | fin (q : ℚ)
  | pinf
  | ninf
  | nan
  deriving DecidableEq, Repr

/-- `isnan`. -/
def FVal.isNan : FVal → Bool
  | nan => true
  | _ => false

/-- `isfinite` (false on `±∞` and on `NaN`, as in torch). -/
def FVal.isFin : FVal → Bool
  | fin _ => true
  | _ => false

/-- Squaring: `(±∞)² = +∞`, `NaN² = NaN`. -/
def FVal.sq : FVal → FVal
  | fin q => fin (q * q)
  | pinf => pinf
  | ninf => pinf
  | nan => nan

/-- IEEE addition (`∞ + (-∞) = NaN`, `NaN` propagates). -/
def FVal.add : FVal → FVal → FVal
  | fin a, fin b => fin (a + b)
  | fin _, x => x
  | x, fin _ => x
  | pinf, pinf => pinf
  | ninf, ninf => ninf
  | _, _ => nan

/-- Subtract the constant 1. -/
def FVal.sub1 : FVal → FVal
  | fin q => fin (q - 1)
  | x => x

/-- Absolute value. -/
def FVal.fabs : FVal → FVal
  | fin q => fin |q|
  | pinf => pinf
  | ninf => pinf
  | nan => nan

/-- IEEE `<`: any comparison involving `NaN` is false. -/
def FVal.flt : FVal → FVal → Bool
  | fin a, fin b => decide (a < b)
  | ninf, fin _ => true
  | ninf, pinf => true
  | fin _, pinf => true
  | _, _ => false

/-- `torch.max` reduction step: propagates `NaN`. -/
def FVal.fmax : FVal → FVal → FVal
  | nan, _ => nan
  | _, nan => nan
  | pinf, _ => pinf
  | _, pinf => pinf
  | fin a, fin b => fin (max a b)
  | fin a, ninf => fin a
  | ninf, fin b => fin b
  | ninf, ninf => ninf

/-- One pixel of a `[B, 3, H, W]` prediction: its three channel values. -/
abbrev PixelF := FVal × FVal × FVal

/-- `(prediction ** 2).sum(dim=1)` at one pixel. -/
def sumSq (p : PixelF) : FVal :=
  (p.1.sq.add p.2.1.sq).add p.2.2.sq

/-- `.max()` reduction over all pixels (torch errors on an empty tensor; the
empty case below is unreachable at the call site because the all-finite check
fires first on an empty prediction). -/
def maxAll : List FVal → FVal
  | [] => FVal.ninf
  | d :: ds => ds.foldl FVal.fmax d

/-- Errors of the `encode_prediction` `check_input` block. -/
inductive EncErr
  | nanDetected
  | nonFiniteDetected
  | nonUnitDetected
  deriving DecidableEq, Repr

/-- The `check_input` block of `encode_prediction` (lines 691-698), embedded
exactly as the source has it: raise on any NaN; raise "Non-finite values
detected" when `isfinite().all()` holds (the source's condition as written);
raise "Non-unit vectors detected" when the largest deviation of a pixel's
squared norm from 1 is `< 1e-3` (the source's comparison as written). -/
def encodeCheck (pred : List PixelF) : Except EncErr Unit :=
  if pred.any (fun p => p.1.isNan || p.2.1.isNan || p.2.2.isNan) then
    .error .nanDetected
  else if pred.all (fun p => p.1.isFin && p.2.1.isFin && p.2.2.isFin) then
    .error .nonFiniteDetected
  else if (maxAll (pred.map (fun p => (sumSq p).sub1.fabs))).flt (FVal.fin (1 / 1000)) then
    .error .nonUnitDetected
  else .ok ()

/-! ## Normal-vector geometry over ℝ (source lines 170-205, 663-676)

`normalize_normals`, `decode_prediction`'s pixel postprocessing and
`ensemble_normals` act independently on each pixel's 3-vector, so they are
embedded pixelwise on `Vec3`.  Machine floats are idealised as real numbers;
`torch.norm(..., dim=1)` is the Euclidean norm. -/

@[ext]
structure Vec3 where
  x : ℝ
  y : ℝ
  z : ℝ

/-- Componentwise sum (for the ensemble mean). -/
def add3 (u v : Vec3) : Vec3 :=
  ⟨u.x + v.x, u.y + v.y, u.z + v.z⟩

/-- Dot product (`(mean_normals * normals).sum(dim=1)`). -/
def dot3 (u v : Vec3) : ℝ :=
  u.x * v.x + u.y * v.y + u.z * v.z

/-- Squared Euclidean norm. -/
def normSq (v : Vec3) : ℝ :=
  dot3 v v

/-- Euclidean norm (`torch.norm(normals, dim=1)`). -/
noncomputable def norm3 (v : Vec3) : ℝ :=
  Real.sqrt (normSq v)

/-- The `eps` default of `normalize_normals` and `ensemble_normals`, 1e-6. -/
noncomputable def epsN : ℝ :=
  1 / 1000000

/-- `normalize_normals` at one pixel: divide by `norm.clamp(min=eps)`. -/
noncomputable def normalizeVec (e : ℝ) (v : Vec3) : Vec3 :=
  let c := max (norm3 v) e
  ⟨v.x / c, v.y / c, v.z / c⟩

/-- `torch.clip(x, -1.0, 1.0)` on one component. -/
noncomputable def clip1 (t : ℝ) : ℝ :=
  max (-1) (min 1 t)

/-- `decode_prediction` after the external VAE decode (lines 663-676), at one
pixel: clip componentwise to `[-1, 1]`; if the z-range convention is halved,
remap `z ↦ 0.5 z + 0.5`; finally `normalize_normals`. -/
noncomputable def decodePredictionPixel (useFullZRange : Bool) (v : Vec3) : Vec3 :=
  let c : Vec3 := ⟨clip1 v.x, clip1 v.y, clip1 v.z⟩
  let c2 : Vec3 := if useFullZRange then c else ⟨c.x, c.y, c.z * (1 / 2) + 1 / 2⟩
  normalizeVec epsN c2

/-- Sum of a list of vectors. -/
def sumVec (vs : List Vec3) : Vec3 :=
  vs.foldr add3 ⟨0, 0, 0⟩

/-- `normals.mean(dim=0)` at one pixel. -/
noncomputable def meanVec (vs : List Vec3) : Vec3 :=
  let s := sumVec vs
  let n : ℝ := vs.length
  ⟨s.x / n, s.y / n, s.z / n⟩

/-- `torch.argmax` over a nonempty list, returning `(index, value)` of the
first maximal element ([] gives `(0, 0)`; unreachable at the call site). -/
noncomputable def argmaxIV : List ℝ → ℕ × ℝ
  | [] => (0, 0)
  | [x] => (0, x)
  | x :: y :: xs =>
    let p := argmaxIV (y :: xs)
    if x < p.2 then (p.1 + 1, p.2) else (0, x)

/-- `ensemble_normals` at one pixel (lines 179-205; the optional uncertainty
output is a separate tensor and not part of the returned normal map).  The
mean over the ensemble is renormalised; "mean" returns it; "closest" gathers
the sample whose cosine similarity `(mean_normals * normals).sum(dim=1)` to it
is maximal (argmax over the ensemble dimension). -/
noncomputable def ensembleNormalsPixel (vs : List Vec3) (reduction : String) : Vec3 :=
  let meanN := normalizeVec epsN (meanVec vs)
  if reduction = "mean" then meanN
  else
    let simCos := vs.map (fun v => dot3 meanN v)
    vs.getD (argmaxIV simCos).1 ⟨0, 0, 0⟩

/-! ## Helper lemmas -/

/-- `getD` at an in-range index is a member. -/
theorem getD_mem {α : Type} : ∀ (l : List α) (n : ℕ) (d : α), n < l.length → l.getD n d ∈ l
  | [], n, _, h => absurd h (by simp)
  | x :: xs, 0, d, _ => by simp
  | x :: xs, n + 1, d, h => by
    simpa using Or.inr (getD_mem xs n d (by simpa using h))

/-- `getD` commutes with `map` when the default is the image of a default. -/
theorem getD_map {α β : Type} (f : α → β) (d : α) :
    ∀ (l : List α) (n : ℕ), (l.map f).getD n (f d) = f (l.getD n d)
  | [], n => by simp
  | x :: xs, 0 => by simp
  | x :: xs, n + 1 => by simp [getD_map f d xs n]

/-- The last-element-with-default of a nonempty list is a member. -/
theorem getLastD_mem {α : Type} : ∀ (l : List α) (d : α), l ≠ [] → l.getLastD d ∈ l
  | [], _, h => absurd rfl h
  | [x], d, _ => by simp
  | x :: y :: xs, d, _ => by
    have := getLastD_mem (y :: xs) d (by simp)
    simpa [List.getLastD_cons] using Or.inr this

/-! ## C1 -/

/-- Pipeline-call arguments used for C1: a single 8x8 float image, all
configuration values valid, `ensemble_size = 1`, `processing_resolution = 8`,
no generator, and a precomputed latent whose shape `[1, 4, 1, 1]` is exactly
the expected latent shape for this configuration. -/
def c1Args : CallArgs :=
  ⟨.pt ⟨[8, 8], .float, []⟩, some 4, 1, some 8, "bilinear", "bilinear", 1, true,
   none, some [1, 4, 1, 1], none, "np", none, false, none, none, 4⟩

/-- C1: a precomputed `input_latent` of exactly the expected shape
`(num_images * ensemble_size, 4, h, w)` is NOT accepted: `check_inputs`
rejects it with the "unsupported dimensions or shape" error, because the
source's guard `if not input_latent.dim() != 4` fires precisely on
4-dimensional latents.  The second conjunct certifies that `[1, 4, 1, 1]` is
the expected shape for this configuration (the shape comparison, reached on
its own, would succeed), so the failure is the inverted dimension guard, not
a shape mismatch. -/
theorem C1_expected_shape_latent_rejected :
    checkInputs c1Args (some 4) (some 8) = .error .latentDims ∧
    latentShapeCompare 4 1 [1, 4, 1, 1] 1 8 8 = .ok () :=
  ⟨rfl, rfl⟩

/-! ## C5 -/

/-- C5: the finiteness check of `encode_prediction` is inverted.  The
prediction `[(0, 0, 1)]` — a perfectly finite unit normal — is rejected with
the "Non-finite values detected" error, while the prediction `[(0, 0, +inf)]`,
which DOES contain a non-finite value, passes all three checks. -/
theorem C5_finiteness_check_inverted :
    encodeCheck [(.fin 0, .fin 0, .fin 1)] = .error .nonFiniteDetected ∧
    encodeCheck [(.fin 0, .fin 0, .pinf)] = .ok () :=
  ⟨rfl, rfl⟩

/-! ## C2 -/

/-- Pipeline-call arguments used for the C2 counterexample: a fresh pipeline
(empty-text embedding not yet cached), a valid configuration, and a 2x2 float
image containing the value 2, which is outside `[-1, 1]`. -/
def c2Args : CallArgs :=
  ⟨.pt ⟨[2, 2], .float, [2, 0, 0, 0]⟩, some 4, 1, some 8, "bilinear", "bilinear",
   1, true, none, none, none, "np", none, false, none, none, 4⟩

/-- C2 counterexample: on this call the pipeline raises the image value-range
validation error AFTER invoking the tokenizer/text encoder
(`encode_empty_text`, step 2 of `__call__`): the model-invocation trace at the
moment of the error already contains the text-encoder step, so the claim that
no model collaborator runs before any validation error is false. -/
theorem C2_counterexample_text_encoder_before_range_error :
    callTrace c2Args = ([Step.textEncoder], some MErr.imageOutOfRange) :=
  rfl

/-! ## C3 -/

/-- Dimension behaviour of the shape-normalisation stage: the result is
always 4-D; 2-D and 3-D inputs get batch dimension 1 and channel dimension
exactly 3; 4-D inputs keep their shape unchanged (no channel check). -/
theorem canonShape_dims (t u : Tensor) (h : canonShape t = .ok u) :
    u.dims.length = 4 ∧
    (t.dims.length = 2 ∨ t.dims.length = 3 →
      u.dims.headD 0 = 1 ∧ u.dims.getD 1 0 = 3) ∧
    (t.dims.length = 4 → u.dims = t.dims) := by
  obtain ⟨dims, dty, dat⟩ := t
  rcases dims with _ | ⟨d0, _ | ⟨d1, _ | ⟨d2, _ | ⟨d3, _ | ⟨d4, rest⟩⟩⟩⟩⟩
  · simp [canonShape] at h
  · simp [canonShape] at h
  · -- 2-D input
    simp only [canonShape, Except.ok.injEq] at h
    subst h
    simp [repeatCh3, unsqueeze0]
  · -- 3-D input
    by_cases hc : d2 = 1 ∨ d2 = 3
    · by_cases h2 : d2 = 1
      · subst h2
        simp only [canonShape, permute201, rep3, unsqueeze0] at h
        simp at h
        subst h
        simp
      · have h3 : d2 = 3 := hc.resolve_left h2
        subst h3
        simp only [canonShape, permute201, rep3, unsqueeze0] at h
        simp at h
        subst h
        simp
    · by_cases h2 : d0 = 1
      · subst h2
        simp only [canonShape] at h
        rw [if_neg hc] at h
        simp only [rep3, unsqueeze0] at h
        simp at h
        subst h
        simp
      · by_cases h3 : d0 = 3
        · subst h3
          simp only [canonShape] at h
          rw [if_neg hc] at h
          simp only [unsqueeze0] at h
          simp at h
          subst h
          simp
        · simp only [canonShape] at h
          rw [if_neg hc] at h
          simp [h2, h3] at h
  · -- 4-D input passes through unchanged
    simp only [canonShape, Except.ok.injEq] at h
    subst h
    simp
  · simp [canonShape] at h

/-- The 4-D single-channel tensor of the C3 counterexample. -/
def c3Tensor4D : Tensor :=
  ⟨[1, 1, 4, 4], .float, List.replicate 16 0⟩

/-- C3 counterexample: (i) the 4-D float array of shape `[1, 1, 4, 4]` is
accepted by `load_image_canonical` and returned with channel dimension 1, not
3 — 4-D inputs are passed through without any channel handling; (ii) a 2-D
torch uint8 image is accepted but returned still as uint8 (the float cast
happens later, in `__call__`), so the result is not a floating-point tensor. -/
theorem C3_counterexample_channel_and_dtype :
    loadImageCanonical (.np c3Tensor4D) = .ok (c3Tensor4D, none) ∧
    loadImageCanonical (.pt ⟨[4, 4], .uint 255, List.replicate 16 0⟩) =
      .ok (⟨[1, 3, 4, 4], .uint 255, List.replicate 48 0⟩, some 255) :=
  ⟨rfl, rfl⟩

/-- C3 amended: for every input accepted by `load_image_canonical`, the
result is 4-D; when the input is 2-D or 3-D the result has batch dimension 1
and channel dimension exactly 3; a 4-D input keeps its shape unchanged, so
its channel dimension is whatever the caller passed. -/
theorem C3_amended_canonical_dims (inp : ImageInput) (t : Tensor) (d : Option ℕ)
    (h : loadImageCanonical inp = .ok (t, d)) :
    t.dims.length = 4 ∧
    ((dimsOf inp).length = 2 ∨ (dimsOf inp).length = 3 →
      t.dims.headD 0 = 1 ∧ t.dims.getD 1 0 = 3) ∧
    ((dimsOf inp).length = 4 → t.dims = dimsOf inp) := by
  cases inp with
  | other => simp [loadImageCanonical] at h
  | np t0 =>
    cases hd : t0.dtype <;> simp only [loadImageCanonical, hd] at h
    · cases hc : canonShape t0 <;> simp only [hc, Except.map] at h
      · simp at h
      · simp only [Except.ok.injEq, Prod.mk.injEq] at h
        obtain ⟨rfl, rfl⟩ := h
        simpa [dimsOf] using canonShape_dims _ _ hc
    · cases hc : canonShape ⟨t0.dims, .float, t0.data⟩ <;>
        simp only [hc, Except.map] at h
      · simp at h
      · simp only [Except.ok.injEq, Prod.mk.injEq] at h
        obtain ⟨rfl, rfl⟩ := h
        simpa [dimsOf] using canonShape_dims _ _ hc
    · simp at h
    · simp at h
    · simp at h
  | pil t0 =>
    cases hd : t0.dtype <;> simp only [loadImageCanonical, hd] at h
    · cases hc : canonShape t0 <;> simp only [hc, Except.map] at h
      · simp at h
      · simp only [Except.ok.injEq, Prod.mk.injEq] at h
        obtain ⟨rfl, rfl⟩ := h
        simpa [dimsOf] using canonShape_dims _ _ hc
    · cases hc : canonShape ⟨t0.dims, .float, t0.data⟩ <;>
        simp only [hc, Except.map] at h
      · simp at h
      · simp only [Except.ok.injEq, Prod.mk.injEq] at h
        obtain ⟨rfl, rfl⟩ := h
        simpa [dimsOf] using canonShape_dims _ _ hc
    · simp at h
    · simp at h
    · simp at h
  | pt t0 =>
    cases hd : t0.dtype <;> simp only [loadImageCanonical, hd] at h
    · cases hc : canonShape t0 <;> simp only [hc, Except.map] at h
      · simp at h
      · simp only [Except.ok.injEq, Prod.mk.injEq] at h
        obtain ⟨rfl, rfl⟩ := h
        simpa [dimsOf] using canonShape_dims _ _ hc
    · rename_i m
      by_cases hm : m = 255
      · rw [if_pos hm] at h
        cases hc : canonShape t0 <;> simp only [hc, Except.map] at h
        · simp at h
        · simp only [Except.ok.injEq, Prod.mk.injEq] at h
          obtain ⟨rfl, rfl⟩ := h
          simpa [dimsOf] using canonShape_dims _ _ hc
      · rw [if_neg hm] at h
        simp at h
    · simp at h
    · simp at h
    · simp at h

/-- The 2-D float input of the C3 witness and the canonical tensor it maps
to. -/
def c3In2D : ImageInput :=
  .pt ⟨[2, 2], .float, [0, 0, 0, 0]⟩

/-- Canonical result for `c3In2D`. -/
def c3Out2D : Tensor :=
  ⟨[1, 3, 2, 2], .float, [0, 0, 0, 0, 0, 0, 0, 0, 0, 0, 0, 0]⟩

/-- C3 witness: the amended dimension guarantees instantiated on a concrete
accepted 2-D input. -/
theorem C3_amended_canonical_dims_witness :
    loadImageCanonical c3In2D = .ok (c3Out2D, none) ∧
    (c3Out2D.dims.length = 4 ∧
      ((dimsOf c3In2D).length = 2 ∨ (dimsOf c3In2D).length = 3 →
        c3Out2D.dims.headD 0 = 1 ∧ c3Out2D.dims.getD 1 0 = 3) ∧
      ((dimsOf c3In2D).length = 4 → c3Out2D.dims = dimsOf c3In2D)) :=
  ⟨rfl, C3_amended_canonical_dims c3In2D c3Out2D none rfl⟩

/-! ## C7 -/

/-- Taking back a right-padded row recovers the row. -/
theorem padRow_take (pw : ℕ) (r : List ℚ) :
    (padRow pw r).take ((padRow pw r).length - pw) = r := by
  unfold padRow
  rw [List.length_append, List.length_replicate, Nat.add_sub_cancel]
  exact List.take_left r _

/-- Unpadding a padded 2-D slice with the same amounts recovers the slice. -/
theorem unpad_pad2d (ph pw : ℕ) (m : Mat) :
    unpad2dBy ph pw (pad2dBy ph pw m) = m := by
  unfold pad2dBy unpad2dBy
  have hlen :
      ((m.map (padRow pw)) ++
        List.replicate ph ((m.map (padRow pw)).getLastD [])).length =
      (m.map (padRow pw)).length + ph := by
    simp
  rw [hlen, Nat.add_sub_cancel, List.take_left, List.map_map]
  have hfg : ((fun r : List ℚ => r.take (r.length - pw)) ∘ padRow pw) = id :=
    funext (fun r => padRow_take pw r)
  rw [hfg, List.map_id]

/-- C7: `unpad_image` applied with the padding record returned by `pad_image`
reconstructs the input exactly, for every 4-D image and positive alignment. -/
theorem C7_pad_unpad_roundtrip (t : Img4) (a : ℕ) (_ha : 0 < a) :
    unpadImage (padImage t a).1 (padImage t a).2 = t := by
  show (t.map (fun ch =>
      ch.map (pad2dBy (negMod (height4 t) a) (negMod (width4 t) a)))).map
      (fun ch => ch.map (unpad2dBy (negMod (height4 t) a) (negMod (width4 t) a))) = t
  rw [List.map_map]
  have hch : ((fun ch : List Mat =>
      ch.map (unpad2dBy (negMod (height4 t) a) (negMod (width4 t) a))) ∘
      (fun ch : List Mat =>
      ch.map (pad2dBy (negMod (height4 t) a) (negMod (width4 t) a)))) = id := by
    funext ch
    simp only [Function.comp_apply, List.map_map, id_eq]
    have : (unpad2dBy (negMod (height4 t) a) (negMod (width4 t) a) ∘
        pad2dBy (negMod (height4 t) a) (negMod (width4 t) a)) = id :=
      funext (fun m => unpad_pad2d _ _ m)
    rw [this, List.map_id]
  rw [hch, List.map_id]

/-- C7 witness: the round trip at a concrete 1x1x2x2 image with alignment 4. -/
theorem C7_pad_unpad_roundtrip_witness :
    0 < 4 ∧
    unpadImage (padImage [[[[(1 : ℚ), 2], [3, 4]]]] 4).1
      (padImage [[[[(1 : ℚ), 2], [3, 4]]]] 4).2 = [[[[(1 : ℚ), 2], [3, 4]]]] :=
  ⟨by decide, C7_pad_unpad_roundtrip [[[[(1 : ℚ), 2], [3, 4]]]] 4 (by decide)⟩

/-! ## C10 -/

/-- The padding amount is strictly below the alignment. -/
theorem negMod_lt (n : ℕ) {a : ℕ} (ha : 0 < a) : negMod n a < a := by
  unfold negMod
  have hne : (a : ℤ) ≠ 0 := by exact_mod_cast ha.ne'
  have h1 : 0 ≤ (-(n : ℤ)) % (a : ℤ) := Int.emod_nonneg _ hne
  have h2 : (-(n : ℤ)) % (a : ℤ) < (a : ℤ) := Int.emod_lt_of_pos _ (by exact_mod_cast ha)
  omega

/-- Padded size is a multiple of the alignment. -/
theorem negMod_dvd (n : ℕ) {a : ℕ} (ha : 0 < a) : a ∣ (n + negMod n a) := by
  have hne : (a : ℤ) ≠ 0 := by exact_mod_cast ha.ne'
  have h0 : ((negMod n a : ℕ) : ℤ) = (-(n : ℤ)) % (a : ℤ) := by
    unfold negMod
    exact Int.toNat_of_nonneg (Int.emod_nonneg _ hne)
  rw [← Int.natCast_dvd_natCast]
  push_cast [h0]
  rw [Int.emod_def]
  exact ⟨-((-(n : ℤ)) / (a : ℤ)), by ring⟩

/-- An already-aligned size needs no padding. -/
theorem negMod_eq_zero (n : ℕ) {a : ℕ} (h : n % a = 0) : negMod n a = 0 := by
  unfold negMod
  have hd : (a : ℤ) ∣ (-(n : ℤ)) :=
    dvd_neg.mpr (Int.natCast_dvd_natCast.mpr (Nat.dvd_of_mod_eq_zero h))
  rw [Int.emod_eq_zero_of_dvd hd]
  rfl

/-- Padding adds exactly `ph` rows. -/
theorem pad2dBy_length (ph pw : ℕ) (m : Mat) :
    (pad2dBy ph pw m).length = m.length + ph := by
  simp [pad2dBy]

/-- Every row of a padded slice has length `w + pw` when every input row has
length `w` (and the bottom padding is absent for an empty slice). -/
theorem pad2dBy_row_lengths (ph pw w : ℕ) (m : Mat)
    (hrows : ∀ r ∈ m, r.length = w) (hz : m = [] → ph = 0) :
    ∀ r ∈ pad2dBy ph pw m, r.length = w + pw := by
  intro r hr
  unfold pad2dBy at hr
  rcases List.mem_append.mp hr with h1 | h2
  · obtain ⟨r0, hr0, rfl⟩ := List.mem_map.mp h1
    simp [padRow, hrows r0 hr0]
  · have hrep := List.eq_of_mem_replicate h2
    subst hrep
    rcases eq_or_ne m [] with rfl | hne
    · rw [hz rfl] at h2
      simp at h2
    · have hm1 : m.map (padRow pw) ≠ [] := by simpa using hne
      have hmem := getLastD_mem (m.map (padRow pw)) [] hm1
      obtain ⟨r0, hr0, heq⟩ := List.mem_map.mp hmem
      rw [← heq]
      simp [padRow, hrows r0 hr0]

/-- Padding never changes an in-bounds element. -/
theorem pad2dBy_elem (ph pw : ℕ) (m : Mat) (i j : ℕ)
    (hi : i < m.length) (hj : j < (m.getD i []).length) :
    ((pad2dBy ph pw m).getD i []).getD j 0 = (m.getD i []).getD j 0 := by
  unfold pad2dBy
  have hi1 : i < (m.map (padRow pw)).length := by simpa using hi
  rw [List.getD_append _ _ _ _ hi1, List.getD_eq_getElem _ _ hi1, List.getElem_map,
    List.getD_eq_getElem _ _ hi]
  rw [List.getD_eq_getElem _ _ hi] at hj
  unfold padRow
  exact List.getD_append _ _ _ _ hj

/-- C10: for a rectangular 4-D image and positive alignment, `pad_image`
returns the padding record `(-h % a, -w % a)`, both components lie in
`[0, a)`, the padded height and width `h + ph` and `w + pw` are multiples of
`a` (hence, with `ph, pw < a`, the smallest multiples at or above `h`, `w`),
an aligned axis gets padding 0, every padded slice has exactly the enlarged
shape, and the original content occupies the top-left region unchanged. -/
theorem C10_pad_image_properties (t : Img4) (a : ℕ) (ha : 0 < a)
    (hr : rect4 t (height4 t) (width4 t)) :
    (padImage t a).2 = (negMod (height4 t) a, negMod (width4 t) a) ∧
    negMod (height4 t) a < a ∧ negMod (width4 t) a < a ∧
    a ∣ (height4 t + negMod (height4 t) a) ∧
    a ∣ (width4 t + negMod (width4 t) a) ∧
    (height4 t % a = 0 → negMod (height4 t) a = 0) ∧
    (width4 t % a = 0 → negMod (width4 t) a = 0) ∧
    (∀ ch ∈ (padImage t a).1, ∀ m ∈ ch,
      m.length = height4 t + negMod (height4 t) a ∧
      ∀ r ∈ m, r.length = width4 t + negMod (width4 t) a) ∧
    (∀ bi ci i j, i < height4 t → j < width4 t →
      elem4 (padImage t a).1 bi ci i j = elem4 t bi ci i j) := by
  refine ⟨rfl, negMod_lt _ ha, negMod_lt _ ha, negMod_dvd _ ha, negMod_dvd _ ha,
    fun h => negMod_eq_zero _ h, fun h => negMod_eq_zero _ h, ?_, ?_⟩
  · -- shapes of the padded slices
    intro ch hch m hm
    show m.length = height4 t + negMod (height4 t) a ∧ _
    obtain ⟨ch0, hch0, rfl⟩ := List.mem_map.mp hch
    obtain ⟨m0, hm0, rfl⟩ := List.mem_map.mp hm
    obtain ⟨hlen0, hrows0⟩ := hr ch0 hch0 m0 hm0
    constructor
    · rw [pad2dBy_length, hlen0]
    · refine pad2dBy_row_lengths _ _ _ _ hrows0 (fun hm0e => ?_)
      have : height4 t = 0 := by rw [← hlen0, hm0e]; rfl
      rw [this]
      exact negMod_eq_zero _ (Nat.zero_mod a)
  · -- content preservation
    intro bi ci i j hi hj
    unfold elem4
    have hp : (padImage t a).1 = t.map (fun ch =>
        ch.map (pad2dBy (negMod (height4 t) a) (negMod (width4 t) a))) := rfl
    rw [hp]
    by_cases hbi : bi < t.length
    · have h1 : (t.map (fun ch =>
          ch.map (pad2dBy (negMod (height4 t) a) (negMod (width4 t) a)))).getD bi [] =
          (t.getD bi []).map (pad2dBy (negMod (height4 t) a) (negMod (width4 t) a)) := by
        rw [List.getD_eq_getElem _ _ (by simpa using hbi), List.getElem_map,
          List.getD_eq_getElem _ _ hbi]
      rw [h1]
      by_cases hci : ci < (t.getD bi []).length
      · have h2 : ((t.getD bi []).map
            (pad2dBy (negMod (height4 t) a) (negMod (width4 t) a))).getD ci [] =
            pad2dBy (negMod (height4 t) a) (negMod (width4 t) a)
              ((t.getD bi []).getD ci []) := by
          rw [List.getD_eq_getElem _ _ (by simpa using hci), List.getElem_map,
            List.getD_eq_getElem _ _ hci]
        rw [h2]
        have hch_mem : t.getD bi [] ∈ t := getD_mem _ _ _ hbi
        have hm_mem : (t.getD bi []).getD ci [] ∈ t.getD bi [] := getD_mem _ _ _ hci
        obtain ⟨hlen0, hrows0⟩ := hr _ hch_mem _ hm_mem
        have hi0 : i < ((t.getD bi []).getD ci []).length := by rw [hlen0]; exact hi
        have hj0 : j < (((t.getD bi []).getD ci []).getD i []).length := by
          rw [hrows0 _ (getD_mem _ _ _ hi0)]
          exact hj
        exact pad2dBy_elem _ _ _ _ _ hi0 hj0
      · have h2 : ((t.getD bi []).map
            (pad2dBy (negMod (height4 t) a) (negMod (width4 t) a))).getD ci [] =
            ([] : Mat) :=
          List.getD_eq_default _ _ (by simpa using Nat.le_of_not_lt hci)
        have h3 : (t.getD bi []).getD ci [] = ([] : Mat) :=
          List.getD_eq_default _ _ (Nat.le_of_not_lt hci)
        rw [h2, h3]
    · have h1 : (t.map (fun ch =>
          ch.map (pad2dBy (negMod (height4 t) a) (negMod (width4 t) a)))).getD bi [] =
          ([] : List Mat) :=
        List.getD_eq_default _ _ (by simpa using Nat.le_of_not_lt hbi)
      have h2 : t.getD bi [] = ([] : List Mat) :=
        List.getD_eq_default _ _ (Nat.le_of_not_lt hbi)
      rw [h1, h2]

/-- Concrete image for the C10 witness: one batch, one channel, 2x2 content,
alignment 4. -/
def c10Img : Img4 :=
  [[[[(1 : ℚ), 2], [3, 4]]]]

/-- C10 witness: the pad properties instantiated at `c10Img` with alignment
4 (so `ph = pw = 2`). -/
theorem C10_pad_image_properties_witness :
    0 < 4 ∧ rect4 c10Img (height4 c10Img) (width4 c10Img) ∧
    ((padImage c10Img 4).2 = (negMod (height4 c10Img) 4, negMod (width4 c10Img) 4) ∧
    negMod (height4 c10Img) 4 < 4 ∧ negMod (width4 c10Img) 4 < 4 ∧
    4 ∣ (height4 c10Img + negMod (height4 c10Img) 4) ∧
    4 ∣ (width4 c10Img + negMod (width4 c10Img) 4) ∧
    (height4 c10Img % 4 = 0 → negMod (height4 c10Img) 4 = 0) ∧
    (width4 c10Img % 4 = 0 → negMod (width4 c10Img) 4 = 0) ∧
    (∀ ch ∈ (padImage c10Img 4).1, ∀ m ∈ ch,
      m.length = height4 c10Img + negMod (height4 c10Img) 4 ∧
      ∀ r ∈ m, r.length = width4 c10Img + negMod (width4 c10Img) 4) ∧
    (∀ bi ci i j, i < height4 c10Img → j < width4 c10Img →
      elem4 (padImage c10Img 4).1 bi ci i j = elem4 c10Img bi ci i j)) :=
  ⟨by decide, by decide, C10_pad_image_properties c10Img 4 (by decide) (by decide)⟩

/-! ## C8 -/

/-- C8: on a 4-D image with at least one nonzero spatial dimension,
`resize_to_max_edge` raises the extreme-aspect (degenerate geometry) error
exactly when the scaled height or width `d * s / max h w` computes to zero;
otherwise the result keeps the leading dimensions and its larger spatial
dimension equals the target edge exactly. -/
theorem C8_resize_max_edge (n c h w s : ℕ) (t : Tensor)
    (hd : t.dims = [n, c, h, w]) (hpos : 0 < max h w) :
    (resizeToMaxEdgeT t s = .error .extremeAspect ↔
      h * s / max h w = 0 ∨ w * s / max h w = 0) ∧
    (∀ t2, resizeToMaxEdgeT t s = .ok t2 →
      t2.dims = [n, c, h * s / max h w, w * s / max h w] ∧
      max (h * s / max h w) (w * s / max h w) = s) := by
  have hred : resizeToMaxEdgeT t s =
      (if h * s / max h w = 0 ∨ w * s / max h w = 0 then .error .extremeAspect
       else .ok ⟨[n, c, h * s / max h w, w * s / max h w], t.dtype, t.data⟩) := by
    unfold resizeToMaxEdgeT
    rw [hd]
    rfl
  constructor
  · rw [hred]
    constructor
    · intro he
      by_contra hne
      rw [if_neg hne] at he
      exact absurd he (by simp)
    · intro hz
      rw [if_pos hz]
  · intro t2 hok
    rw [hred] at hok
    by_cases hz : h * s / max h w = 0 ∨ w * s / max h w = 0
    · rw [if_pos hz] at hok
      exact absurd hok (by simp)
    · rw [if_neg hz] at hok
      simp only [Except.ok.injEq] at hok
      subst hok
      push_neg at hz
      refine ⟨rfl, ?_⟩
      rcases le_total h w with hle | hle
      · have hw : 0 < w := by
          rcases Nat.eq_zero_or_pos w with hw0 | hw0
          · subst hw0
            simp only [Nat.le_zero] at hle
            subst hle
            exact absurd hpos (by simp)
          · exact hw0
        have hmax : max h w = w := Nat.max_eq_right hle
        rw [hmax]
        have hww : w * s / w = s := Nat.mul_div_cancel_left s hw
        rw [hww]
        have hhs : h * s / w ≤ s := by
          calc h * s / w ≤ w * s / w := Nat.div_le_div_right (Nat.mul_le_mul_right s hle)
            _ = s := hww
        exact Nat.max_eq_right hhs
      · have hh : 0 < h := by
          rcases Nat.eq_zero_or_pos h with hh0 | hh0
          · subst hh0
            simp only [Nat.le_zero] at hle
            subst hle
            exact absurd hpos (by simp)
          · exact hh0
        have hmax : max h w = h := Nat.max_eq_left hle
        rw [hmax]
        have hhh : h * s / h = s := Nat.mul_div_cancel_left s hh
        rw [hhh]
        have hws : w * s / h ≤ s := by
          calc w * s / h ≤ h * s / h := Nat.div_le_div_right (Nat.mul_le_mul_right s hle)
            _ = s := hhh
        exact Nat.max_eq_left hws

/-- C8 witness: the spec's own example, a 1x10000 image resized to edge 4,
instantiates the theorem (and the error case of its iff: the scaled height is
`1 * 4 / 10000 = 0`). -/
theorem C8_resize_max_edge_witness :
    (⟨[1, 1, 1, 10000], .float, []⟩ : Tensor).dims = [1, 1, 1, 10000] ∧
    0 < max 1 10000 ∧
    ((resizeToMaxEdgeT ⟨[1, 1, 1, 10000], .float, []⟩ 4 = .error .extremeAspect ↔
      1 * 4 / max 1 10000 = 0 ∨ 10000 * 4 / max 1 10000 = 0) ∧
    (∀ t2, resizeToMaxEdgeT ⟨[1, 1, 1, 10000], .float, []⟩ 4 = .ok t2 →
      t2.dims = [1, 1, 1 * 4 / max 1 10000, 10000 * 4 / max 1 10000] ∧
      max (1 * 4 / max 1 10000) (10000 * 4 / max 1 10000) = 4)) :=
  ⟨rfl, by decide,
    C8_resize_max_edge 1 1 1 10000 4 ⟨[1, 1, 1, 10000], .float, []⟩ rfl (by decide)⟩

/-! ## C6 -/

/-- `isNan = false` names exactly the non-NaN values. -/
theorem isNan_false_iff (a : FVal) : a.isNan = false ↔ a ≠ .nan := by
  cases a <;> simp [FVal.isNan]

/-- For a pixel with no NaN component, the deviation `|sum(v²) - 1|` is never
NaN, and it is `+∞` as soon as some component is non-finite. -/
theorem dev_facts (a b c : FVal) (ha : a ≠ .nan) (hb : b ≠ .nan) (hc : c ≠ .nan) :
    ((sumSq (a, b, c)).sub1.fabs ≠ .nan) ∧
    ((a.isFin && b.isFin && c.isFin) = false → (sumSq (a, b, c)).sub1.fabs = .pinf) := by
  cases a <;> cases b <;> cases c <;>
    simp_all [sumSq, FVal.sq, FVal.add, FVal.sub1, FVal.fabs, FVal.isFin]

/-- `fmax` of two non-NaN values is not NaN. -/
theorem fmax_ne_nan (d x : FVal) (hd : d ≠ .nan) (hx : x ≠ .nan) :
    FVal.fmax d x ≠ .nan := by
  cases d <;> cases x <;> simp_all [FVal.fmax]

/-- `fmax` with `+∞` on the left is `+∞` (absent NaN). -/
theorem fmax_pinf_left (x : FVal) (hx : x ≠ .nan) : FVal.fmax .pinf x = .pinf := by
  cases x <;> simp_all [FVal.fmax]

/-- `fmax` with `+∞` on the right is `+∞` (absent NaN). -/
theorem fmax_pinf_right (d : FVal) (hd : d ≠ .nan) : FVal.fmax d .pinf = .pinf := by
  cases d <;> simp_all [FVal.fmax]

/-- Folding `fmax` over NaN-free values returns `+∞` once `+∞` is seen. -/
theorem foldl_fmax_pinf :
    ∀ (l : List FVal) (d : FVal), d ≠ .nan → (∀ x ∈ l, x ≠ .nan) →
      (d = .pinf ∨ .pinf ∈ l) → l.foldl FVal.fmax d = .pinf
  | [], d, _, _, hmem => by
    rcases hmem with h | h
    · simpa using h
    · simp at h
  | x :: xs, d, hd, hno, hmem => by
    have hx : x ≠ .nan := hno x (by simp)
    have hxs : ∀ y ∈ xs, y ≠ .nan := fun y hy => hno y (by simp [hy])
    rw [List.foldl_cons]
    rcases hmem with h | h
    · subst h
      exact foldl_fmax_pinf xs _ (fmax_ne_nan _ _ hd hx) hxs
        (Or.inl (fmax_pinf_left x hx))
    · rcases List.mem_cons.mp h with h | h
      · rw [← h] at hx ⊢
        exact foldl_fmax_pinf xs _ (fmax_ne_nan _ _ hd hx) hxs
          (Or.inl (fmax_pinf_right d hd))
      · exact foldl_fmax_pinf xs _ (fmax_ne_nan _ _ hd hx) hxs (Or.inr h)

/-- The `.max()` reduction over NaN-free values containing `+∞` is `+∞`. -/
theorem maxAll_pinf (l : List FVal) (hno : ∀ x ∈ l, x ≠ .nan)
    (hmem : .pinf ∈ l) : maxAll l = .pinf := by
  cases l with
  | nil => simp at hmem
  | cons d ds =>
    show ds.foldl FVal.fmax d = .pinf
    refine foldl_fmax_pinf ds d (hno d (by simp)) (fun x hx => hno x (by simp [hx])) ?_
    rcases List.mem_cons.mp hmem with h | h
    · exact Or.inl h.symm
    · exact Or.inr h

/-- C6: the "Non-unit vectors detected" branch of `encode_prediction` is
unreachable: for every prediction, either the NaN check or the (inverted)
finiteness check fires first, or some value is `±∞`, in which case the
maximal deviation `|sum(v²) - 1|` is `+∞` and the IEEE comparison
`+∞ < 1e-3` is false.  So `encodeCheck` never returns that error. -/
theorem C6_nonunit_branch_unreachable (pred : List PixelF) :
    encodeCheck pred ≠ .error .nonUnitDetected := by
  unfold encodeCheck
  by_cases h1 : pred.any (fun p => p.1.isNan || p.2.1.isNan || p.2.2.isNan) = true
  · rw [if_pos h1]
    simp
  · rw [if_neg h1]
    by_cases h2 : pred.all (fun p => p.1.isFin && p.2.1.isFin && p.2.2.isFin) = true
    · rw [if_pos h2]
      simp
    · rw [if_neg h2]
      have hno : ∀ p ∈ pred, p.1 ≠ .nan ∧ p.2.1 ≠ .nan ∧ p.2.2 ≠ .nan := by
        intro p hp
        have hfalse : (p.1.isNan || p.2.1.isNan || p.2.2.isNan) = false := by
          cases hb : (p.1.isNan || p.2.1.isNan || p.2.2.isNan)
          · rfl
          · exact absurd (List.any_eq_true.mpr ⟨p, hp, hb⟩) h1
        simp only [Bool.or_eq_false_iff] at hfalse
        exact ⟨(isNan_false_iff _).mp hfalse.1.1, (isNan_false_iff _).mp hfalse.1.2,
          (isNan_false_iff _).mp hfalse.2⟩
      have hex : ∃ p ∈ pred, (p.1.isFin && p.2.1.isFin && p.2.2.isFin) = false := by
        by_contra hne
        push_neg at hne
        refine h2 (List.all_eq_true.mpr (fun p hp => ?_))
        cases hb : (p.1.isFin && p.2.1.isFin && p.2.2.isFin)
        · exact absurd hb (hne p hp)
        · rfl
      obtain ⟨p0, hp0, hp0f⟩ := hex
      have hdev_nonan : ∀ x ∈ pred.map (fun p => ((sumSq p).sub1.fabs)), x ≠ .nan := by
        intro x hx
        obtain ⟨p, hp, rfl⟩ := List.mem_map.mp hx
        obtain ⟨ha, hb, hc⟩ := hno p hp
        exact (dev_facts p.1 p.2.1 p.2.2 ha hb hc).1
      have hdev_pinf : FVal.pinf ∈ pred.map (fun p => ((sumSq p).sub1.fabs)) := by
        obtain ⟨ha, hb, hc⟩ := hno p0 hp0
        have := (dev_facts p0.1 p0.2.1 p0.2.2 ha hb hc).2 (by simpa using hp0f)
        exact this ▸ List.mem_map_of_mem _ hp0
      rw [maxAll_pinf _ hdev_nonan hdev_pinf]
      simp [FVal.flt]

/-- C6 witness: the theorem instantiated at a concrete prediction containing
an infinite value. -/
theorem C6_nonunit_branch_unreachable_witness :
    encodeCheck [(.fin 0, .fin 0, .pinf)] ≠ .error .nonUnitDetected :=
  C6_nonunit_branch_unreachable [(.fin 0, .fin 0, .pinf)]

/-! ## C4 -/

/-- The zero vector has norm 0. -/
theorem norm3_zero : norm3 ⟨0, 0, 0⟩ = 0 := by
  unfold norm3 normSq dot3
  norm_num

/-- C4 counterexample: the decoded pixel value `(0, 0, -1)` (a value the
external VAE decoder may produce; with the half-z-range convention its z is
remapped to 0) reconstructs to the zero vector: the ε-floor of
`normalize_normals` divides by `ε` instead of raising, leaving a zero —
hence non-unit — pixel, which every later stage (ensembling skipped at
`E = 1`, the final `normalize_normals`) maps to itself.  Its norm is 0, not
1 ± 1e-4. -/
theorem C4_counterexample_zero_vector :
    decodePredictionPixel false ⟨0, 0, -1⟩ = ⟨0, 0, 0⟩ ∧
    normalizeVec epsN ⟨0, 0, 0⟩ = ⟨0, 0, 0⟩ ∧
    norm3 ⟨0, 0, 0⟩ = 0 ∧ |norm3 ⟨0, 0, 0⟩ - 1| > 1 / 10000 := by
  have hclip0 : clip1 0 = 0 := by
    unfold clip1
    norm_num
  have hclip1 : clip1 (-1) = -1 := by
    unfold clip1
    norm_num
  have hnz : normalizeVec epsN ⟨0, 0, 0⟩ = ⟨0, 0, 0⟩ := by
    unfold normalizeVec
    simp
  refine ⟨?_, hnz, norm3_zero, by rw [norm3_zero]; norm_num⟩
  show normalizeVec epsN ⟨clip1 0, clip1 0, clip1 (-1) * (1 / 2) + 1 / 2⟩ = ⟨0, 0, 0⟩
  rw [hclip0, hclip1]
  norm_num
  exact hnz

/-- C4 amended: every pixel whose vector entering `normalize_normals` has
norm at least `ε = 1e-6` comes out with norm exactly 1 (hence within the
1e-4 tolerance).  This is the final pixel operation of both the "closest" and
the "mean" ensembling paths (and of `decode_prediction`), so unit length
holds wherever the pre-normalisation vector is not sub-ε; sub-ε vectors are
divided by `ε` without raising and may stay non-unit (the zero vector stays
zero). -/
theorem C4_amended_unit_norm (v : Vec3) (h : epsN ≤ norm3 v) :
    norm3 (normalizeVec epsN v) = 1 := by
  have heps : (0 : ℝ) < epsN := by norm_num [epsN]
  have hn : 0 < norm3 v := lt_of_lt_of_le heps h
  have hmax : max (norm3 v) epsN = norm3 v := max_eq_left h
  have hs : 0 ≤ normSq v := by
    unfold normSq dot3
    exact add_nonneg (add_nonneg (mul_self_nonneg _) (mul_self_nonneg _))
      (mul_self_nonneg _)
  have hnn : norm3 v * norm3 v = normSq v := Real.mul_self_sqrt hs
  have hsplit : normSq v = v.x * v.x + v.y * v.y + v.z * v.z := rfl
  have hcalc : normSq (normalizeVec epsN v) = 1 := by
    simp only [normalizeVec, normSq, dot3, hmax]
    field_simp
    nlinarith [hnn, hsplit]
  unfold norm3
  rw [hcalc]
  exact Real.sqrt_one

/-- C4 witness: the amended statement at the concrete unit pixel `(1,0,0)`. -/
theorem C4_amended_unit_norm_witness :
    epsN ≤ norm3 ⟨1, 0, 0⟩ ∧ norm3 (normalizeVec epsN ⟨1, 0, 0⟩) = 1 := by
  have h1 : norm3 ⟨1, 0, 0⟩ = 1 := by
    unfold norm3 normSq dot3
    norm_num
  have h : epsN ≤ norm3 ⟨1, 0, 0⟩ := by
    rw [h1]
    norm_num [epsN]
  exact ⟨h, C4_amended_unit_norm ⟨1, 0, 0⟩ h⟩

/-! ## C9 -/

/-- Unfolding equation of `argmaxIV` on a two-or-more-element list. -/
theorem argmaxIV_cons2 (x y : ℝ) (xs : List ℝ) :
    argmaxIV (x :: y :: xs) =
      if x < (argmaxIV (y :: xs)).2 then
        ((argmaxIV (y :: xs)).1 + 1, (argmaxIV (y :: xs)).2)
      else (0, x) := by
  simp [argmaxIV]

/-- The argmax index of a nonempty list is in range. -/
theorem argmaxIV_lt : ∀ (l : List ℝ), l ≠ [] → (argmaxIV l).1 < l.length
  | [], h => absurd rfl h
  | [_], _ => by simp [argmaxIV]
  | x :: y :: xs, _ => by
    rw [argmaxIV_cons2]
    have ih := argmaxIV_lt (y :: xs) (by simp)
    by_cases hc : x < (argmaxIV (y :: xs)).2
    · rw [if_pos hc]
      simpa using Nat.succ_lt_succ ih
    · rw [if_neg hc]
      simp

/-- The argmax value is the element at the argmax index. -/
theorem argmaxIV_getD : ∀ (l : List ℝ), l ≠ [] → l.getD (argmaxIV l).1 0 = (argmaxIV l).2
  | [], h => absurd rfl h
  | [_], _ => by simp [argmaxIV]
  | x :: y :: xs, _ => by
    rw [argmaxIV_cons2]
    have ih := argmaxIV_getD (y :: xs) (by simp)
    by_cases hc : x < (argmaxIV (y :: xs)).2
    · rw [if_pos hc]
      simpa using ih
    · rw [if_neg hc]
      simp

/-- The argmax value bounds every element. -/
theorem argmaxIV_ge : ∀ (l : List ℝ) (u : ℝ), u ∈ l → u ≤ (argmaxIV l).2
  | [], _, h => absurd h (by simp)
  | [x], u, h => by
    simp only [List.mem_singleton] at h
    subst h
    simp [argmaxIV]
  | x :: y :: xs, u, h => by
    rw [argmaxIV_cons2]
    by_cases hc : x < (argmaxIV (y :: xs)).2
    · rw [if_pos hc]
      rcases List.mem_cons.mp h with rfl | h2
      · simpa using le_of_lt hc
      · simpa using argmaxIV_ge (y :: xs) u h2
    · rw [if_neg hc]
      push_neg at hc
      rcases List.mem_cons.mp h with rfl | h2
      · simp
      · simpa using le_trans (argmaxIV_ge (y :: xs) u h2) hc

/-- C9: for every nonempty ensemble of pixel vectors, the "closest" reduction
returns one of the input samples, namely one whose cosine similarity
`(mean_normals * normals).sum(dim=1)` with the renormalised mean direction is
maximal over the ensemble; consequently it is never the renormalised mean
itself unless some sample coincides with it. -/
theorem C9_closest_reduction (vs : List Vec3) (h : vs ≠ []) :
    ensembleNormalsPixel vs "closest" ∈ vs ∧
    (∀ u ∈ vs, dot3 (normalizeVec epsN (meanVec vs)) u ≤
      dot3 (normalizeVec epsN (meanVec vs)) (ensembleNormalsPixel vs "closest")) ∧
    ((∀ u ∈ vs, u ≠ normalizeVec epsN (meanVec vs)) →
      ensembleNormalsPixel vs "closest" ≠ normalizeVec epsN (meanVec vs)) := by
  have hred : ensembleNormalsPixel vs "closest" =
      vs.getD
        (argmaxIV (vs.map (fun v => dot3 (normalizeVec epsN (meanVec vs)) v))).1
        ⟨0, 0, 0⟩ := by
    unfold ensembleNormalsPixel
    rw [if_neg (by decide : ¬("closest" : String) = "mean")]
  set m := normalizeVec epsN (meanVec vs) with hm
  set sims := vs.map (fun v => dot3 m v) with hsims
  have hsne : sims ≠ [] := by
    rw [hsims]
    intro hc
    exact h (List.map_eq_nil_iff.mp hc)
  have hlen : sims.length = vs.length := by
    rw [hsims]
    exact List.length_map _ _
  have hidx : (argmaxIV sims).1 < vs.length := by
    rw [← hlen]
    exact argmaxIV_lt sims hsne
  have hmem : vs.getD (argmaxIV sims).1 ⟨0, 0, 0⟩ ∈ vs := getD_mem _ _ _ hidx
  have hgetd : sims.getD (argmaxIV sims).1 0 =
      dot3 m (vs.getD (argmaxIV sims).1 ⟨0, 0, 0⟩) := by
    have hidx2 : (argmaxIV sims).1 < sims.length := argmaxIV_lt sims hsne
    rw [List.getD_eq_getElem _ _ hidx2, List.getD_eq_getElem _ _ hidx]
    simp only [hsims, List.getElem_map]
  refine ⟨hred ▸ hmem, ?_, ?_⟩
  · intro u hu
    rw [hred]
    have h1 : dot3 m u ∈ sims := by
      rw [hsims]
      exact List.mem_map_of_mem _ hu
    have h2 := argmaxIV_ge sims _ h1
    rw [← argmaxIV_getD sims hsne, hgetd] at h2
    exact h2
  · intro hall
    rw [hred]
    exact hall _ hmem

/-- C9 witness: the theorem at a concrete two-sample ensemble. -/
theorem C9_closest_reduction_witness :
    ([⟨0, 0, 1⟩, ⟨0, 0, 1⟩] : List Vec3) ≠ [] ∧
    (ensembleNormalsPixel [⟨0, 0, 1⟩, ⟨0, 0, 1⟩] "closest" ∈
      ([⟨0, 0, 1⟩, ⟨0, 0, 1⟩] : List Vec3) ∧
    (∀ u ∈ ([⟨0, 0, 1⟩, ⟨0, 0, 1⟩] : List Vec3),
      dot3 (normalizeVec epsN (meanVec [⟨0, 0, 1⟩, ⟨0, 0, 1⟩])) u ≤
      dot3 (normalizeVec epsN (meanVec [⟨0, 0, 1⟩, ⟨0, 0, 1⟩]))
        (ensembleNormalsPixel [⟨0, 0, 1⟩, ⟨0, 0, 1⟩] "closest")) ∧
    ((∀ u ∈ ([⟨0, 0, 1⟩, ⟨0, 0, 1⟩] : List Vec3),
      u ≠ normalizeVec epsN (meanVec [⟨0, 0, 1⟩, ⟨0, 0, 1⟩])) →
      ensembleNormalsPixel [⟨0, 0, 1⟩, ⟨0, 0, 1⟩] "closest" ≠
        normalizeVec epsN (meanVec [⟨0, 0, 1⟩, ⟨0, 0, 1⟩]))) := by
  have h : ([⟨0, 0, 1⟩, ⟨0, 0, 1⟩] : List Vec3) ≠ [] := by simp
  exact ⟨h, C9_closest_reduction _ h⟩

/-! ## C2, amended -/

/-- The tail stages (resize, pad, VAE encode) either report an error with the
trace unchanged, or succeed having appended the first VAE-encoder event. -/
theorem callTail_spec (pr : ℤ) (tr : List Step) (t : Tensor) :
    (∃ e, callTail pr tr t = (tr, some e)) ∨
    callTail pr tr t = (tr ++ [Step.vaeEncoder], none) := by
  unfold callTail
  by_cases hpr : 0 < pr
  · rw [if_pos hpr]
    cases resizeToMaxEdgeT t pr.toNat
    · exact Or.inl ⟨_, rfl⟩
    · exact Or.inr rfl
  · rw [if_neg hpr]
    exact Or.inr rfl

/-- Stage 3 of the prologue either stops with an error, leaving the trace as
it was, or succeeds having appended exactly the first VAE-encoder event. -/
theorem callStage3_spec (a : CallArgs) (tr : List Step) :
    (∃ e, callStage3 a tr = (tr, some e)) ∨
    callStage3 a tr = (tr ++ [Step.vaeEncoder], none) := by
  unfold callStage3
  cases loadImageCanonical a.image
  · exact Or.inl ⟨_, rfl⟩
  · rename_i r
    obtain ⟨t, dmax⟩ := r
    cases dmax
    · dsimp only
      by_cases hci : a.checkInput
      · rw [if_pos hci]
        cases checkImageValuesRange t
        · exact Or.inl ⟨_, rfl⟩
        · exact callTail_spec _ _ _
      · rw [if_neg hci]
        exact callTail_spec _ _ _
    · exact callTail_spec _ _ _

/-- C2 amended: every error raised by `check_inputs` precedes every model
invocation (the call returns with an empty invocation trace); and every
validation error of the call prologue — including the image dtype and
value-range errors raised during preprocessing, after the empty-text
embedding (a text-encoder invocation) — still precedes the first VAE-encoder
invocation. -/
theorem C2_amended_validation_order (a : CallArgs) :
    (∀ e, checkInputs a (resolvedSteps a) (resolvedRes a) = .error e →
      callTrace a = ([], some e)) ∧
    (∀ e, (callTrace a).2 = some e → Step.vaeEncoder ∉ (callTrace a).1) := by
  constructor
  · intro e h
    unfold callTrace
    rw [h]
  · intro e h
    have htr : Step.vaeEncoder ∉
        (if a.emptyTextCached then ([] : List Step) else [Step.textEncoder]) := by
      by_cases hc : a.emptyTextCached
      · rw [if_pos hc]
        simp
      · rw [if_neg hc]
        simp
    unfold callTrace at h ⊢
    cases hchk : checkInputs a (resolvedSteps a) (resolvedRes a)
    · show Step.vaeEncoder ∉ ([] : List Step)
      simp
    · rw [hchk] at h
      replace h : (callStage3 a
          (if a.emptyTextCached then [] else [Step.textEncoder])).2 = some e := h
      show Step.vaeEncoder ∉ (callStage3 a
          (if a.emptyTextCached then [] else [Step.textEncoder])).1
      rcases callStage3_spec a
          (if a.emptyTextCached then [] else [Step.textEncoder]) with ⟨e2, hsp⟩ | hsp
      · rw [hsp]
        exact htr
      · rw [hsp] at h
        simp at h

/-- Arguments for the C2 witness: valid except for `batch_size = 0`. -/
def c2WitnessArgs : CallArgs :=
  ⟨.pt ⟨[2, 2], .float, [0, 0, 0, 0]⟩, some 4, 1, some 8, "bilinear", "bilinear",
   0, true, none, none, none, "np", none, false, none, none, 4⟩

/-- C2 witness: on a call failing `check_inputs` (here: non-positive batch
size), the amended ordering theorem yields a run with an empty
model-invocation trace. -/
theorem C2_amended_validation_order_witness :
    checkInputs c2WitnessArgs (resolvedSteps c2WitnessArgs) (resolvedRes c2WitnessArgs) =
      .error .batchNotPositive ∧
    callTrace c2WitnessArgs = ([], some .batchNotPositive) :=
  ⟨rfl, (C2_amended_validation_order c2WitnessArgs).1 .batchNotPositive rfl⟩
